import Mathlib

/-!
Shallow embedding of the pyRobBot context-retrieval subsystem:
the embedding-based history selector (`chat_context.py`), the embeddings
database (`embeddings_database.py`) and the token-usage ledgers
(`pyrobbot/tokens.py` and the legacy `gpt_buddy_bot/tokens.py`).
Each Lean definition is translated from the corresponding Python function;
external library calls (pandas sorting and deduplication, sqlite triggers,
`json.dumps` / `ast.literal_eval` string escaping) are modelled by explicit
Lean functions whose doc comments state the modelling choices.
-/

namespace PyRobBot

/-- One chat message dict as used throughout the code: keys `role`,
optionally `name`, and `content`. -/
structure ChatMsg where
  role : String
  name : Option String
  content : String
deriving DecidableEq, Repr

/-- One row of the `messages` table as seen by `_select_relevant_history`
(`chat_context.py`): storage timestamp, the parsed message exchange
(`ast.literal_eval` of the `message_exchange` column) and the parsed
embedding vector.  Embedding coordinates are modelled as rationals. -/
structure HistoryRec where
  timestamp : Nat
  message_exchange : List ChatMsg
  embedding : List ℚ
deriving DecidableEq, Repr

/-- Helper for `dropDuplicates`: keeps the elements of the second list whose
value has not been seen before (`seen` accumulates values already kept). -/
def ddAux [DecidableEq α] : List α → List α → List α
  | _, [] => []
  | seen, x :: xs => if x ∈ seen then ddAux seen xs else x :: ddAux (x :: seen) xs

/-- Model of `pandas.Series.drop_duplicates`: remove repeated values,
keeping the first occurrence of each value, preserving order. -/
def dropDuplicates [DecidableEq α] (l : List α) : List α := ddAux [] l

/-- Model of `pandas.DataFrame.tail(n)`: the last `n` rows in storage order. -/
def tailN (n : Nat) (l : List α) : List α := l.drop (l.length - n)

/-- The descending-similarity ordering used by
`history_df.sort_values("similarity", ascending=False)`.  The similarity of a
row is `cosine_similarity(row.embedding, emb)`; `cosSim` is the (external)
`openai.embeddings_utils.cosine_similarity` function, kept as a parameter. -/
abbrev simDescRel (cosSim : List ℚ → List ℚ → ℚ) (emb : List ℚ) (a b : HistoryRec) : Prop :=
  cosSim b.embedding emb ≤ cosSim a.embedding emb

/-- The ascending-timestamp ordering used by `sort_values("timestamp")`. -/
abbrev tsRel (a b : HistoryRec) : Prop := a.timestamp ≤ b.timestamp

instance : IsTotal HistoryRec tsRel := ⟨fun a b => Nat.le_total a.timestamp b.timestamp⟩

instance : IsTrans HistoryRec tsRel := ⟨fun _ _ _ => Nat.le_trans⟩

/-- The `df_similar_chats` dataframe of `_select_relevant_history`:
sort all rows by similarity descending, keep the first
`max_n_prompt_reply_pairs` rows, and re-sort those by timestamp.
`pandas.sort_values` (default quicksort) is modelled by a deterministic
stable sort, matching the spec's requirement of a deterministic tie-break. -/
def similarChats (cosSim : List ℚ → List ℚ → ℚ) (emb : List ℚ) (kSim : Nat)
    (history : List HistoryRec) : List HistoryRec :=
  List.insertionSort tsRel ((List.insertionSort (simDescRel cosSim emb) history).take kSim)

/-- The `df_context` concatenation `pd.concat([df_similar_chats, df_last_n_chats])`
of `_select_relevant_history`, at row level. -/
def selectRelevantRecords (cosSim : List ℚ → List ℚ → ℚ) (emb : List ℚ)
    (kSim kRecent : Nat) (history : List HistoryRec) : List HistoryRec :=
  similarChats cosSim emb kSim history ++ tailN kRecent history

/-- `df_context["message_exchange"].apply(ast.literal_eval).drop_duplicates()`:
the selected exchanges, deduplicated by parsed exchange value, first
occurrence kept. -/
def selectedExchanges (cosSim : List ℚ → List ℚ → ℚ) (emb : List ℚ)
    (kSim kRecent : Nat) (history : List HistoryRec) : List (List ChatMsg) :=
  dropDuplicates ((selectRelevantRecords cosSim emb kSim kRecent history).map
    (·.message_exchange))

/-- `_select_relevant_history` (`chat_context.py` lines 139-167): the final
`itertools.chain.from_iterable` flattening of the selected exchanges.
The default policy constants are `max_n_prompt_reply_pairs = 5` and
`max_n_tailing_prompt_reply_pairs = 2`. -/
def selectRelevantHistory (cosSim : List ℚ → List ℚ → ℚ) (emb : List ℚ)
    (kSim kRecent : Nat) (history : List HistoryRec) : List ChatMsg :=
  (selectedExchanges cosSim emb kSim kRecent history).flatten

/-- Similarity function used to instantiate the concrete histories below.
Every stored embedding there is one of the unit vectors `[1, 0]` and `[0, 1]`
and the query embedding is `[1, 0]`; for those inputs the library's cosine
similarity `dot x y / (norm x * norm y)` equals the first coordinate of the
stored vector, which is what this function returns. -/
def simFirst (x _y : List ℚ) : ℚ := x.headD 0

theorem mem_ddAux [DecidableEq α] (x : α) (l : List α) :
    ∀ seen, x ∈ ddAux seen l ↔ x ∈ l ∧ x ∉ seen := by
  induction l with
  | nil => intro seen; simp [ddAux]
  | cons y ys ih =>
    intro seen
    by_cases hy : y ∈ seen
    · rw [ddAux, if_pos hy, ih]
      simp only [List.mem_cons]
      constructor
      · rintro ⟨h1, h2⟩; exact ⟨Or.inr h1, h2⟩
      · rintro ⟨h1 | h1, h2⟩
        · exact absurd (h1 ▸ hy) h2
        · exact ⟨h1, h2⟩
    · rw [ddAux, if_neg hy]
      simp only [List.mem_cons, ih, List.mem_cons]
      by_cases hxy : x = y
      · subst hxy
        simp [hy]
      · simp [hxy]

theorem countP_ddAux_eq_one [DecidableEq α] (x : α) (l : List α) :
    ∀ seen, x ∈ l → x ∉ seen →
      (ddAux seen l).countP (fun y => decide (y = x)) = 1 := by
  induction l with
  | nil => intro seen h; cases h
  | cons y ys ih =>
    intro seen hmem hseen
    by_cases hy : y ∈ seen
    · rw [ddAux, if_pos hy]
      rcases List.mem_cons.mp hmem with h | h
      · exact absurd (h ▸ hy) hseen
      · exact ih seen h hseen
    · rw [ddAux, if_neg hy]
      by_cases hxy : x = y
      · subst hxy
        have hnot : x ∉ ddAux (x :: seen) ys := by
          rw [mem_ddAux]
          rintro ⟨-, h2⟩
          exact h2 (List.mem_cons_self x seen)
        have hzero : (ddAux (x :: seen) ys).countP (fun y => decide (y = x)) = 0 := by
          refine List.countP_eq_zero.mpr ?_
          intro a ha hdec
          exact hnot ((of_decide_eq_true hdec) ▸ ha)
        rw [List.countP_cons, hzero]
        simp
      · have hx : x ∈ ys := by
          rcases List.mem_cons.mp hmem with h | h
          · exact absurd h hxy
          · exact h
        have hx2 : x ∉ y :: seen := by
          intro h
          rcases List.mem_cons.mp h with h | h
          · exact hxy h
          · exact hseen h
        rw [List.countP_cons, ih (y :: seen) hx hx2]
        simp [Ne.symm hxy]

theorem ddAux_eq_self [DecidableEq α] (l : List α) :
    ∀ seen, l.Nodup → (∀ x ∈ l, x ∉ seen) → ddAux seen l = l := by
  induction l with
  | nil => intro seen _ _; rfl
  | cons y ys ih =>
    intro seen hnd hout
    have hy : y ∉ seen := hout y (List.mem_cons_self y ys)
    rw [ddAux, if_neg hy]
    have hnd' := List.nodup_cons.mp hnd
    congr 1
    refine ih (y :: seen) hnd'.2 ?_
    intro x hx hmem
    rcases List.mem_cons.mp hmem with h | h
    · exact hnd'.1 (h ▸ hx)
    · exact hout x (List.mem_cons_of_mem y hx) h

theorem ddAux_congr [DecidableEq α] (l : List α) :
    ∀ s₁ s₂, (∀ x ∈ l, x ∈ s₁ ↔ x ∈ s₂) → ddAux s₁ l = ddAux s₂ l := by
  induction l with
  | nil => intro s₁ s₂ _; rfl
  | cons y ys ih =>
    intro s₁ s₂ hiff
    have hy := hiff y (List.mem_cons_self y ys)
    by_cases h1 : y ∈ s₁
    · rw [ddAux, if_pos h1, ddAux, if_pos (hy.mp h1)]
      exact ih s₁ s₂ (fun x hx => hiff x (List.mem_cons_of_mem y hx))
    · have h2 : y ∉ s₂ := fun h => h1 (hy.mpr h)
      rw [ddAux, if_neg h1, ddAux, if_neg h2]
      congr 1
      refine ih (y :: s₁) (y :: s₂) ?_
      intro x hx
      simp only [List.mem_cons]
      rw [hiff x (List.mem_cons_of_mem y hx)]

theorem ddAux_append [DecidableEq α] (a : List α) :
    ∀ (b seen : List α), ddAux seen (a ++ b) = ddAux seen a ++ ddAux (a ++ seen) b := by
  induction a with
  | nil => intro b seen; simp [ddAux]
  | cons y a' ih =>
    intro b seen
    by_cases hy : y ∈ seen
    · rw [List.cons_append, ddAux, if_pos hy, ddAux, if_pos hy, ih]
      congr 1
      refine ddAux_congr b _ _ ?_
      intro x _
      simp only [List.cons_append, List.mem_cons, List.mem_append]
      constructor
      · tauto
      · rintro (h | h | h)
        · exact Or.inr (h ▸ hy)
        · tauto
        · tauto
    · have hmemb : ∀ x ∈ b, x ∈ a' ++ y :: seen ↔ x ∈ y :: a' ++ seen := by
        intro x _
        simp only [List.mem_append, List.mem_cons]
        tauto
      rw [List.cons_append, ddAux, if_neg hy, ddAux, if_neg hy, ih,
        ddAux_congr b _ _ hmemb, List.cons_append]
      rfl

theorem ddAux_eq_filter [DecidableEq α] (b : List α) :
    ∀ seen, b.Nodup → ddAux seen b = b.filter (fun x => decide (x ∉ seen)) := by
  induction b with
  | nil => intro seen _; rfl
  | cons y ys ih =>
    intro seen hnd
    have hnd' := List.nodup_cons.mp hnd
    by_cases hy : y ∈ seen
    · rw [ddAux, if_pos hy, List.filter_cons,
        if_neg (by simp [hy] : ¬ (decide (y ∉ seen) = true))]
      exact ih seen hnd'.2
    · rw [ddAux, if_neg hy, List.filter_cons,
        if_pos (by simp [hy] : decide (y ∉ seen) = true)]
      congr 1
      rw [ih (y :: seen) hnd'.2]
      refine List.filter_congr ?_
      intro x hx
      have hxy : x ≠ y := fun h => hnd'.1 (h ▸ hx)
      simp [List.mem_cons, hxy]

theorem ddAux_takeWhile [DecidableEq α] (x : α) (l : List α) :
    ∀ seen, x ∈ l → x ∉ seen →
      ∃ rest, ddAux seen l =
        ddAux seen (l.takeWhile (fun y => decide (y ≠ x))) ++ x :: rest := by
  induction l with
  | nil => intro seen h; cases h
  | cons y ys ih =>
    intro seen hmem hseen
    by_cases hxy : x = y
    · subst hxy
      rw [ddAux, if_neg hseen]
      refine ⟨ddAux (x :: seen) ys, ?_⟩
      have : (List.cons x ys).takeWhile (fun y => decide (y ≠ x)) = [] := by
        simp [List.takeWhile_cons]
      rw [this]
      rfl
    · have hx : x ∈ ys := by
        rcases List.mem_cons.mp hmem with h | h
        · exact absurd h hxy
        · exact h
      have htw : (List.cons y ys).takeWhile (fun z => decide (z ≠ x)) =
          y :: ys.takeWhile (fun z => decide (z ≠ x)) := by
        simp [List.takeWhile_cons, Ne.symm hxy]
      by_cases hy : y ∈ seen
      · rw [ddAux, if_pos hy, htw, ddAux, if_pos hy]
        exact ih seen hx hseen
      · rw [ddAux, if_neg hy, htw, ddAux, if_neg hy]
        have hx2 : x ∉ y :: seen := by
          intro h
          rcases List.mem_cons.mp h with h | h
          · exact hxy h
          · exact hseen h
        obtain ⟨rest, hrest⟩ := ih (y :: seen) hx hx2
        exact ⟨rest, by rw [hrest, List.cons_append]⟩

theorem mem_dropDuplicates [DecidableEq α] (x : α) (l : List α) :
    x ∈ dropDuplicates l ↔ x ∈ l := by
  rw [dropDuplicates, mem_ddAux]
  simp

/-- A two-message exchange (user prompt plus assistant reply), the shape the
parent chat records through `add_to_history`. -/
def mkExchange (u a : String) : List ChatMsg :=
  [⟨"user", none, u⟩, ⟨"assistant", none, a⟩]

/-- Query embedding used by the concrete histories below.  With the unit
vectors stored in those histories, `simFirst` equals cosine similarity exactly. -/
def queryEmb : List ℚ := [1, 0]

/-- Concrete six-exchange history: the first record is the only dissimilar
one, the other five are maximally similar to `queryEmb`. -/
def hist6 : List HistoryRec :=
  [⟨0, mkExchange "u0" "a0", [0, 1]⟩,
   ⟨1, mkExchange "u1" "a1", [1, 0]⟩,
   ⟨2, mkExchange "u2" "a2", [1, 0]⟩,
   ⟨3, mkExchange "u3" "a3", [1, 0]⟩,
   ⟨4, mkExchange "u4" "a4", [1, 0]⟩,
   ⟨5, mkExchange "u5" "a5", [1, 0]⟩]

/-- Concrete three-exchange history whose most recent record is also the most
similar one. -/
def hist3 : List HistoryRec :=
  [⟨0, mkExchange "u0" "a0", [0, 1]⟩,
   ⟨1, mkExchange "u1" "a1", [0, 1]⟩,
   ⟨2, mkExchange "u2" "a2", [1, 0]⟩]

/-- Concrete six-exchange history where the similarity subset contains the
last record but not the second-to-last one. -/
def hist6b : List HistoryRec :=
  [⟨0, mkExchange "u0" "a0", [1, 0]⟩,
   ⟨1, mkExchange "u1" "a1", [1, 0]⟩,
   ⟨2, mkExchange "u2" "a2", [1, 0]⟩,
   ⟨3, mkExchange "u3" "a3", [1, 0]⟩,
   ⟨4, mkExchange "u4" "a4", [0, 1]⟩,
   ⟨5, mkExchange "u5" "a5", [1, 0]⟩]

/-- The storage timestamp of the first record holding a given exchange. -/
def tsOfExchange (history : List HistoryRec) (e : List ChatMsg) : Nat :=
  ((history.filter (fun r => decide (r.message_exchange = e))).map (·.timestamp)).headD 0

/-- Claim C1 (counterexample): the claim asserts full coverage for histories
of length up to `K_sim + K_recent = 7` with no duplicate exchanges, but on
`hist6` (length 6, all exchanges distinct) the first exchange is dropped:
the five most-similar records crowd out the dissimilar first record, and the
trailing window only re-adds the last two records. -/
theorem selector_windowing_cex :
    hist6.length ≤ 5 + 2 ∧ (hist6.map (·.message_exchange)).Nodup ∧
    ¬ (∀ r ∈ hist6, r.message_exchange ∈ selectedExchanges simFirst queryEmb 5 2 hist6) := by
  decide

/-- Claim C1 (amended): for every stored history whose number of exchange
records is at most `K_sim = 5` and that contains no duplicate exchanges,
Strategy B's `_select_relevant_history` returns every stored exchange: the
exchange survives deduplication and each of its messages appears in the
flattened output. -/
theorem selector_windowing_full_coverage
    (cosSim : List ℚ → List ℚ → ℚ) (emb : List ℚ) (history : List HistoryRec)
    (hlen : history.length ≤ 5)
    (hnd : (history.map (·.message_exchange)).Nodup) :
    ∀ r ∈ history, r.message_exchange ∈ selectedExchanges cosSim emb 5 2 history ∧
      ∀ m ∈ r.message_exchange, m ∈ selectRelevantHistory cosSim emb 5 2 history := by
  intro r hr
  have hmem : r ∈ similarChats cosSim emb 5 history := by
    unfold similarChats
    have h1 : r ∈ List.insertionSort (simDescRel cosSim emb) history :=
      ((List.perm_insertionSort _ _).mem_iff).mpr hr
    have h2 : (List.insertionSort (simDescRel cosSim emb) history).take 5
        = List.insertionSort (simDescRel cosSim emb) history := by
      apply List.take_of_length_le
      rw [(List.perm_insertionSort _ _).length_eq]
      exact hlen
    rw [h2]
    exact ((List.perm_insertionSort tsRel _).mem_iff).mpr h1
  have hex : r.message_exchange ∈ selectedExchanges cosSim emb 5 2 history := by
    rw [selectedExchanges, mem_dropDuplicates]
    exact List.mem_map_of_mem _ (List.mem_append_left _ hmem)
  refine ⟨hex, ?_⟩
  intro m hm
  rw [selectRelevantHistory]
  exact List.mem_flatten.mpr ⟨r.message_exchange, hex, hm⟩

/-- Witness for the amended claim C1 at the concrete history `hist3`. -/
theorem selector_windowing_full_coverage_witness :
    hist3.length ≤ 5 ∧ (hist3.map (·.message_exchange)).Nodup ∧
    ∀ r ∈ hist3, r.message_exchange ∈ selectedExchanges simFirst queryEmb 5 2 hist3 ∧
      ∀ m ∈ r.message_exchange, m ∈ selectRelevantHistory simFirst queryEmb 5 2 hist3 :=
  ⟨by decide, by decide,
    selector_windowing_full_coverage simFirst queryEmb hist3 (by decide) (by decide)⟩

/-- Claim C2: an exchange that is selected both by the top-`K_sim`-similarity
subset and by the last-`K_recent`-recency subset appears exactly once in the
deduplicated output, and it is kept at the position of its first occurrence:
the output starts with the deduplicated prefix of the concatenated selection
that precedes the exchange's first occurrence, immediately followed by the
exchange itself. -/
theorem selector_dedup_exactly_once
    (cosSim : List ℚ → List ℚ → ℚ) (emb : List ℚ) (kSim kRecent : Nat)
    (history : List HistoryRec) (x : List ChatMsg)
    (hsim : x ∈ (similarChats cosSim emb kSim history).map (·.message_exchange))
    (hrec : x ∈ (tailN kRecent history).map (·.message_exchange)) :
    (selectedExchanges cosSim emb kSim kRecent history).countP
      (fun y => decide (y = x)) = 1 ∧
    ∃ rest, selectedExchanges cosSim emb kSim kRecent history =
      dropDuplicates
        (((selectRelevantRecords cosSim emb kSim kRecent history).map
          (·.message_exchange)).takeWhile (fun y => decide (y ≠ x))) ++ x :: rest := by
  have hx : x ∈ (selectRelevantRecords cosSim emb kSim kRecent history).map
      (·.message_exchange) := by
    rw [selectRelevantRecords, List.map_append]
    exact List.mem_append_left _ hsim
  constructor
  · exact countP_ddAux_eq_one x _ [] hx (by simp)
  · simp only [selectedExchanges, dropDuplicates]
    exact ddAux_takeWhile x _ [] hx (by simp)

/-- Witness for claim C2 at `hist3`, whose single most similar exchange is
also the single most recent one. -/
theorem selector_dedup_exactly_once_witness :
    (mkExchange "u2" "a2" ∈ (similarChats simFirst queryEmb 5 hist3).map (·.message_exchange)) ∧
    (mkExchange "u2" "a2" ∈ (tailN 2 hist3).map (·.message_exchange)) ∧
    ((selectedExchanges simFirst queryEmb 5 2 hist3).countP
       (fun y => decide (y = mkExchange "u2" "a2")) = 1 ∧
     ∃ rest, selectedExchanges simFirst queryEmb 5 2 hist3 =
       dropDuplicates
         (((selectRelevantRecords simFirst queryEmb 5 2 hist3).map
           (·.message_exchange)).takeWhile (fun y => decide (y ≠ mkExchange "u2" "a2"))) ++
         mkExchange "u2" "a2" :: rest) :=
  ⟨by decide, by decide,
    selector_dedup_exactly_once simFirst queryEmb 5 2 hist3 (mkExchange "u2" "a2")
      (by decide) (by decide)⟩

/-- Claim C3 (counterexample): on `hist6b` the merged output is not
chronologically ordered as a whole: the last record (selected for
similarity) precedes the second-to-last record (appended by the trailing
window), so timestamp 5 appears before timestamp 4. -/
theorem selector_chronological_cex :
    ¬ List.Pairwise (fun a b => tsOfExchange hist6b a ≤ tsOfExchange hist6b b)
      (selectedExchanges simFirst queryEmb 5 2 hist6b) := by
  decide

/-- Claim C3 (amended): the similarity subset is re-ordered into
chronological (timestamp) order, and the output equals that chronologically
sorted subset followed by the surviving trailing-window exchanges in storage
order; the concatenation as a whole need not be chronologically ordered. -/
theorem selector_merge_structure
    (cosSim : List ℚ → List ℚ → ℚ) (emb : List ℚ) (kSim kRecent : Nat)
    (history : List HistoryRec)
    (hnd : (history.map (·.message_exchange)).Nodup) :
    List.Sorted tsRel (similarChats cosSim emb kSim history) ∧
    selectedExchanges cosSim emb kSim kRecent history =
      (similarChats cosSim emb kSim history).map (·.message_exchange) ++
      ((tailN kRecent history).map (·.message_exchange)).filter
        (fun e => decide (e ∉ (similarChats cosSim emb kSim history).map
          (·.message_exchange))) := by
  constructor
  · exact List.sorted_insertionSort tsRel _
  · have hndA : ((similarChats cosSim emb kSim history).map (·.message_exchange)).Nodup := by
      have p0 : List.Perm ((List.insertionSort (simDescRel cosSim emb) history).map
          (·.message_exchange)) (history.map (·.message_exchange)) :=
        (List.perm_insertionSort _ _).map _
      have h1 : ((List.insertionSort (simDescRel cosSim emb) history).map
          (·.message_exchange)).Nodup := p0.symm.nodup hnd
      have h2 : (((List.insertionSort (simDescRel cosSim emb) history).take kSim).map
          (·.message_exchange)).Nodup :=
        (List.Sublist.map _ (List.take_sublist _ _)).nodup h1
      have p1 : List.Perm ((similarChats cosSim emb kSim history).map (·.message_exchange))
          (((List.insertionSort (simDescRel cosSim emb) history).take kSim).map
            (·.message_exchange)) :=
        (List.perm_insertionSort tsRel _).map _
      exact p1.symm.nodup h2
    have hndB : (((tailN kRecent history).map (·.message_exchange))).Nodup := by
      have : (tailN kRecent history).Sublist history := List.drop_sublist _ _
      exact (List.Sublist.map _ this).nodup hnd
    rw [selectedExchanges, selectRelevantRecords, List.map_append, dropDuplicates,
      ddAux_append]
    congr 1
    · exact ddAux_eq_self _ [] hndA (by simp)
    · rw [ddAux_congr _ _ ((similarChats cosSim emb kSim history).map (·.message_exchange))
        (by intro x _; simp), ddAux_eq_filter _ _ hndB]
      refine List.filter_congr ?_
      intro e _
      exact decide_eq_decide.mpr Iff.rfl

/-- Witness for the amended claim C3 at the concrete history `hist6b`. -/
theorem selector_merge_structure_witness :
    (hist6b.map (·.message_exchange)).Nodup ∧
    (List.Sorted tsRel (similarChats simFirst queryEmb 5 hist6b) ∧
     selectedExchanges simFirst queryEmb 5 2 hist6b =
       (similarChats simFirst queryEmb 5 hist6b).map (·.message_exchange) ++
       ((tailN 2 hist6b).map (·.message_exchange)).filter
         (fun e => decide (e ∉ (similarChats simFirst queryEmb 5 hist6b).map
           (·.message_exchange)))) :=
  ⟨by decide, selector_merge_structure simFirst queryEmb 5 2 hist6b (by decide)⟩

/-- `_make_list_of_context_msgs` (`chat_context.py` lines 133-136): append
the fixed system directive, tagged with the assistant's display name. -/
def makeListOfContextMsgs (history : List ChatMsg) (system_name : String) : List ChatMsg :=
  history ++ [{ role := "system", name := some system_name,
                content := "Considering the previous messages, answer the next message:" }]

/-- `ChatContext.get_context` (`chat_context.py` lines 53-58): wrap the
selector's output with the directive message. -/
def getContext (selected : List ChatMsg) (system_name : String) : List ChatMsg :=
  makeListOfContextMsgs selected system_name

/-- Claim C9: the context assembler's output is the selector's output list
followed by exactly one appended system-role message carrying the fixed
directive string and the assistant's configured display name; the selected
history itself is passed through unchanged. -/
theorem context_assembler_appends_directive (selected : List ChatMsg) (system_name : String) :
    getContext selected system_name =
      selected ++ [{ role := "system", name := some system_name,
                     content := "Considering the previous messages, answer the next message:" }] ∧
    (getContext selected system_name).take selected.length = selected ∧
    (getContext selected system_name).length = selected.length + 1 := by
  refine ⟨rfl, ?_, by simp [getContext, makeListOfContextMsgs]⟩
  simp [getContext, makeListOfContextMsgs]

theorem nodup_ddAux [DecidableEq α] (l : List α) : ∀ seen, (ddAux seen l).Nodup := by
  induction l with
  | nil => intro seen; exact List.nodup_nil
  | cons y ys ih =>
    intro seen
    by_cases hy : y ∈ seen
    · rw [ddAux, if_pos hy]; exact ih seen
    · rw [ddAux, if_neg hy]
      refine List.nodup_cons.mpr ⟨?_, ih (y :: seen)⟩
      rw [mem_ddAux]
      rintro ⟨-, h2⟩
      exact h2 (List.mem_cons_self y seen)

theorem countP_eq_one_of_nodup [DecidableEq α] (m : α) (l : List α)
    (hnd : l.Nodup) (hm : m ∈ l) :
    l.countP (fun y => decide (y = m)) = 1 := by
  induction l with
  | nil => cases hm
  | cons y ys ih =>
    have hnd' := List.nodup_cons.mp hnd
    rcases List.mem_cons.mp hm with h | h
    · have hzero : ys.countP (fun z => decide (z = m)) = 0 :=
        List.countP_eq_zero.mpr
          (fun a ha hd => hnd'.1 (h ▸ ((of_decide_eq_true hd) ▸ ha)))
      rw [List.countP_cons, hzero]
      simp [h.symm]
    · have hym : y ≠ m := fun e => hnd'.1 (e ▸ h)
      rw [List.countP_cons, ih hnd'.2 h]
      simp [hym]

/-- `PRICE_PER_K_TOKENS` (`tokens.py` lines 10-18): the static rate table,
price per thousand tokens, with separate input and output rates.  The float
literals of the source are represented exactly as rationals. -/
def PRICE_PER_K_TOKENS : List (String × ℚ × ℚ) :=
  [("gpt-3.5-turbo", 0.0015, 0.002),
   ("gpt-3.5-turbo-16k", 0.001, 0.002),
   ("gpt-3.5-turbo-1106", 0.001, 0.002),
   ("gpt-4-1106-preview", 0.03, 0.06),
   ("gpt-4", 0.03, 0.06),
   ("text-embedding-ada-002", 0.0001, 0.0),
   ("full-history", 0.0, 0.0)]

/-- `self.token_price[model]` (`tokens.py` lines 27-31): per-token prices,
`PRICE_PER_K_TOKENS` divided by 1000; `none` models the `KeyError` raised by
a dictionary lookup of a model that is not in the table. -/
def tokenPrice (model : String) : Option (ℚ × ℚ) :=
  (PRICE_PER_K_TOKENS.lookup model).map (fun p => (p.1 / 1000, p.2 / 1000))

/-- One row of the `token_costs` table (`pyrobbot/tokens.py` lines 42-53). -/
structure UsageRow where
  timestamp : Nat
  model : String
  n_input_tokens : Nat
  n_output_tokens : Nat
  cost_input_tokens : ℚ
  cost_output_tokens : ℚ
deriving DecidableEq, Repr

/-- Result state of a Python call that may raise: on `.error` (an uncaught
exception) the caller keeps the previous state `old`. -/
def stateAfter (old : σ) : Except String σ → σ
  | .ok s => s
  | .error _ => old

/-- `TokenUsageDatabase.insert_data` (`pyrobbot/tokens.py` lines 58-90):
no-op for a `None` model; `KeyError` when the model is missing from
`token_price` (raised while evaluating the arguments of `cursor.execute`,
before any row is written); otherwise a plain `INSERT` appending one row
with costs computed from the rate table. -/
def insert_data (now : Nat) (model : Option String)
    (n_input_tokens n_output_tokens : Nat)
    (ledger : List UsageRow) : Except String (List UsageRow) :=
  match model with
  | none => .ok ledger
  | some m =>
    match tokenPrice m with
    | none => .error "KeyError"
    | some p =>
      .ok (ledger ++ [{ timestamp := now, model := m,
                        n_input_tokens := n_input_tokens,
                        n_output_tokens := n_output_tokens,
                        cost_input_tokens := (n_input_tokens : ℚ) * p.1,
                        cost_output_tokens := (n_output_tokens : ℚ) * p.2 }])

/-- One row of the legacy `token_costs` table (`gpt_buddy_bot/tokens.py`
lines 42-53), whose `timestamp REAL` column is the `PRIMARY KEY`. -/
structure BuddyRow where
  timestamp : ℚ
  model : String
  n_input_tokens : Nat
  n_output_tokens : Nat
  cost_input_tokens : ℚ
  cost_output_tokens : ℚ
deriving DecidableEq, Repr

/-- Legacy `TokenUsageDatabase.insert_data` (`gpt_buddy_bot/tokens.py` lines
58-90): an `INSERT OR REPLACE` keyed on the float timestamp; sqlite REPLACE
deletes any existing row with the same primary key and inserts the new row
(with a fresh rowid, hence at the end). -/
def insert_data_buddy (now : ℚ) (model : Option String) (nIn nOut : Nat)
    (ledger : List BuddyRow) : Except String (List BuddyRow) :=
  match model with
  | none => .ok ledger
  | some m =>
    match tokenPrice m with
    | none => .error "KeyError"
    | some p =>
      .ok (ledger.filter (fun r => decide (r.timestamp ≠ now)) ++
        [{ timestamp := now, model := m,
           n_input_tokens := nIn, n_output_tokens := nOut,
           cost_input_tokens := (nIn : ℚ) * p.1,
           cost_output_tokens := (nOut : ℚ) * p.2 }])

/-- The legacy ledger state after a sequence of `insert_data` calls, each
given as (float timestamp, model, input tokens, output tokens). -/
def buddyLedgerAfter (calls : List (ℚ × Option String × Nat × Nat)) : List BuddyRow :=
  calls.foldl
    (fun l c => stateAfter l (insert_data_buddy c.1 c.2.1 c.2.2.1 c.2.2.2 l)) []

/-- Claim C7 (counterexample): the claim promises one appended row per record
call "regardless of how close in time consecutive calls occur", but the
`gpt_buddy_bot` ledger uses `INSERT OR REPLACE` with the timestamp as primary
key: two calls carrying the same timestamp leave a single row (the second
call replaces the first), not two. -/
theorem ledger_append_only_cex :
    (buddyLedgerAfter [(100, some "gpt-4", 10, 5)]).length = 1 ∧
    (buddyLedgerAfter [(100, some "gpt-4", 10, 5), (100, some "gpt-4", 100, 50)]).length = 1 := by
  constructor <;> rfl

/-- Claim C7 (amended): in the current `pyrobbot` ledger, every record call
with a non-null model present in the rate table appends exactly one new row
and leaves all previously appended rows unchanged; in the legacy
`gpt_buddy_bot` ledger a call sharing its float timestamp with an existing
row replaces that row instead. -/
theorem ledger_record_appends_one_row
    (now : Nat) (m : String) (nIn nOut : Nat) (ledger : List UsageRow)
    (p : ℚ × ℚ) (hp : tokenPrice m = some p) :
    insert_data now (some m) nIn nOut ledger =
      .ok (ledger ++ [{ timestamp := now, model := m,
                        n_input_tokens := nIn, n_output_tokens := nOut,
                        cost_input_tokens := (nIn : ℚ) * p.1,
                        cost_output_tokens := (nOut : ℚ) * p.2 }]) ∧
    (stateAfter ledger (insert_data now (some m) nIn nOut ledger)).length
        = ledger.length + 1 ∧
    (stateAfter ledger (insert_data now (some m) nIn nOut ledger)).take ledger.length
        = ledger := by
  have h1 : insert_data now (some m) nIn nOut ledger =
      .ok (ledger ++ [{ timestamp := now, model := m,
                        n_input_tokens := nIn, n_output_tokens := nOut,
                        cost_input_tokens := (nIn : ℚ) * p.1,
                        cost_output_tokens := (nOut : ℚ) * p.2 }]) := by
    simp [insert_data, hp]
  refine ⟨h1, ?_, ?_⟩
  · rw [h1]
    simp [stateAfter]
  · rw [h1]
    simp only [stateAfter]
    exact List.take_left ledger _

/-- Witness for the amended claim C7 at a concrete ledger state. -/
theorem ledger_record_appends_one_row_witness :
    tokenPrice "gpt-4" = some (0.03 / 1000, 0.06 / 1000) ∧
    (insert_data 7 (some "gpt-4") 100 50 [] =
      .ok [{ timestamp := 7, model := "gpt-4",
             n_input_tokens := 100, n_output_tokens := 50,
             cost_input_tokens := (100 : ℚ) * (0.03 / 1000 : ℚ),
             cost_output_tokens := (50 : ℚ) * (0.06 / 1000 : ℚ) }] ∧
     (stateAfter [] (insert_data 7 (some "gpt-4") 100 50 [])).length = 0 + 1 ∧
     (stateAfter [] (insert_data 7 (some "gpt-4") 100 50 [])).take 0 = []) := by
  refine ⟨rfl, ?_⟩
  have h := ledger_record_appends_one_row 7 "gpt-4" 100 50 []
    (0.03 / 1000, 0.06 / 1000) rfl
  simpa using h

/-- Claim C8: a record call whose model is absent from the static rate table
raises (`KeyError` from the `token_price` lookup) and appends nothing: the
ledger state after the failed call is exactly the previous state. -/
theorem ledger_unknown_model_fails
    (now : Nat) (m : String) (nIn nOut : Nat) (ledger : List UsageRow)
    (hm : tokenPrice m = none) :
    insert_data now (some m) nIn nOut ledger = .error "KeyError" ∧
    stateAfter ledger (insert_data now (some m) nIn nOut ledger) = ledger := by
  have h1 : insert_data now (some m) nIn nOut ledger = .error "KeyError" := by
    simp [insert_data, hm]
  exact ⟨h1, by rw [h1]; rfl⟩

/-- Witness for claim C8 with a model name outside the rate table. -/
theorem ledger_unknown_model_fails_witness :
    tokenPrice "gpt-99" = none ∧
    (insert_data 3 (some "gpt-99") 10 20 [] = .error "KeyError" ∧
     stateAfter [] (insert_data 3 (some "gpt-99") 10 20 []) = []) :=
  ⟨by decide, ledger_unknown_model_fails 3 "gpt-99" 10 20 [] (by decide)⟩

/-- One `insert_data` call as issued by the chat code: timestamp, model and
token counts. -/
structure LedgerCall where
  now : Nat
  model : String
  n_input_tokens : Nat
  n_output_tokens : Nat
deriving DecidableEq, Repr

/-- Per-token input price of a model known to the rate table. -/
def priceIn (m : String) : ℚ := ((tokenPrice m).getD (0, 0)).1

/-- Per-token output price of a model known to the rate table. -/
def priceOut (m : String) : ℚ := ((tokenPrice m).getD (0, 0)).2

/-- The row `insert_data` appends for a call whose model is in the rate table. -/
def rowOfCall (c : LedgerCall) : UsageRow :=
  { timestamp := c.now, model := c.model,
    n_input_tokens := c.n_input_tokens, n_output_tokens := c.n_output_tokens,
    cost_input_tokens := (c.n_input_tokens : ℚ) * priceIn c.model,
    cost_output_tokens := (c.n_output_tokens : ℚ) * priceOut c.model }

/-- The ledger built by a sequence of `insert_data` calls starting from an
empty `token_costs` table. -/
def ledgerOfCalls (calls : List LedgerCall) : List UsageRow :=
  calls.foldl
    (fun l c => stateAfter l
      (insert_data c.now (some c.model) c.n_input_tokens c.n_output_tokens l)) []

theorem foldl_insert_data (calls : List LedgerCall) :
    ∀ l0, (∀ c ∈ calls, (tokenPrice c.model).isSome) →
      calls.foldl
        (fun l c => stateAfter l
          (insert_data c.now (some c.model) c.n_input_tokens c.n_output_tokens l)) l0
      = l0 ++ calls.map rowOfCall := by
  induction calls with
  | nil => intro l0 _; simp
  | cons c cs ih =>
    intro l0 h
    obtain ⟨p, hp⟩ := Option.isSome_iff_exists.mp (h c (List.mem_cons_self c cs))
    have hstep : insert_data c.now (some c.model) c.n_input_tokens c.n_output_tokens l0
        = .ok (l0 ++ [rowOfCall c]) := by
      simp [insert_data, hp, rowOfCall, priceIn, priceOut]
    rw [List.foldl_cons, hstep]
    have hst : stateAfter l0 (Except.ok (l0 ++ [rowOfCall c])) = l0 ++ [rowOfCall c] := rfl
    rw [hst, ih (l0 ++ [rowOfCall c]) (fun d hd => h d (List.mem_cons_of_mem c hd))]
    simp

theorem ledgerOfCalls_eq_map (calls : List LedgerCall)
    (h : ∀ c ∈ calls, (tokenPrice c.model).isSome) :
    ledgerOfCalls calls = calls.map rowOfCall := by
  rw [ledgerOfCalls, foldl_insert_data calls [] h, List.nil_append]

/-- One output row of `get_usage_balance_dataframe`: a model label (or the
label "Total" for the synthesized totals row), earliest use (empty for the
totals row), token sums and cost sums. -/
structure BalanceRow where
  model : String
  firstUsed : Option Nat
  tokensIn : Nat
  tokensOut : Nat
  tokensTot : Nat
  costIn : ℚ
  costOut : ℚ
  costTot : ℚ
deriving DecidableEq, Repr

/-- `MIN(timestamp)` over a group of rows. -/
def minTs : List Nat → Nat
  | [] => 0
  | t :: ts => ts.foldl min t

/-- The aggregate row that `GROUP BY model` with `SUM`/`MIN` reducers
produces for one model (`pyrobbot/tokens.py` lines 95-108). -/
def balanceRowFor (ledger : List UsageRow) (m : String) : BalanceRow :=
  let rs := ledger.filter (fun r => decide (r.model = m))
  { model := m
    firstUsed := some (minTs (rs.map (·.timestamp)))
    tokensIn := (rs.map (·.n_input_tokens)).sum
    tokensOut := (rs.map (·.n_output_tokens)).sum
    tokensTot := (rs.map (fun r => r.n_input_tokens + r.n_output_tokens)).sum
    costIn := (rs.map (·.cost_input_tokens)).sum
    costOut := (rs.map (·.cost_output_tokens)).sum
    costTot := (rs.map (fun r => r.cost_input_tokens + r.cost_output_tokens)).sum }

/-- The ordering `ORDER BY "Tokens: Tot." DESC` of the aggregate query. -/
abbrev balDescRel (a b : BalanceRow) : Prop := b.tokensTot ≤ a.tokensTot

/-- The model rows of `get_usage_balance_dataframe`: one aggregate row per
distinct model, ordered by total tokens descending (sqlite leaves the
relative order of ties unspecified; modelled by a deterministic stable
sort). -/
def usageBalanceRows (ledger : List UsageRow) : List BalanceRow :=
  List.insertionSort balDescRel
    ((dropDuplicates (ledger.map (·.model))).map (balanceRowFor ledger))

/-- `_add_totals_row` (`pyrobbot/tokens.py` lines 161-164): a row labelled
"Total" holding the column-wise sums of the numeric columns; the datetime
column is excluded from `sum(numeric_only=True)` and left empty. -/
def totalsRow (rows : List BalanceRow) : BalanceRow :=
  { model := "Total"
    firstUsed := none
    tokensIn := (rows.map (·.tokensIn)).sum
    tokensOut := (rows.map (·.tokensOut)).sum
    tokensTot := (rows.map (·.tokensTot)).sum
    costIn := (rows.map (·.costIn)).sum
    costOut := (rows.map (·.costOut)).sum
    costTot := (rows.map (·.costTot)).sum }

/-- `get_usage_balance_dataframe` (`pyrobbot/tokens.py` lines 92-126): the
per-model aggregate rows followed by the synthesized totals row, which
`pd.concat` places last. -/
def getUsageBalance (ledger : List UsageRow) : List BalanceRow :=
  usageBalanceRows ledger ++ [totalsRow (usageBalanceRows ledger)]

theorem filter_model_map_rowOfCall (calls : List LedgerCall) (m : String) :
    (calls.map rowOfCall).filter (fun r => decide (r.model = m))
      = (calls.filter (fun c => decide (c.model = m))).map rowOfCall := by
  induction calls with
  | nil => rfl
  | cons c cs ih =>
    simp only [List.map_cons, List.filter_cons]
    have hmodel : (rowOfCall c).model = c.model := rfl
    by_cases hc : c.model = m
    · rw [if_pos (by simp [hmodel, hc] : decide ((rowOfCall c).model = m) = true),
        if_pos (by simp [hc] : decide (c.model = m) = true), List.map_cons, ih]
    · rw [if_neg (by simp [hmodel, hc] : ¬ (decide ((rowOfCall c).model = m) = true)),
        if_neg (by simp [hc] : ¬ (decide (c.model = m) = true)), ih]

/-- Claim C6: for a sequence of record calls whose models are all in the rate
table, and for each such model `m`, `get_usage_balance_dataframe` contains
exactly one aggregate row for `m`, whose token totals and cost totals are
the arithmetic sums of the individually recorded values; the synthesized
grand-total row is labelled "Total", its numeric columns are the column-wise
sums over all model rows, and it is placed last. -/
theorem summarize_totals (calls : List LedgerCall) (m : String) (p : ℚ × ℚ)
    (h : ∀ c ∈ calls, (tokenPrice c.model).isSome)
    (hp : tokenPrice m = some p) (hm : m ∈ calls.map (·.model)) :
    (getUsageBalance (ledgerOfCalls calls)).countP (fun r => decide (r.model = m)) = 1 ∧
    (∀ r ∈ getUsageBalance (ledgerOfCalls calls), r.model = m →
      r.tokensIn = ((calls.filter (fun c => decide (c.model = m))).map
        (·.n_input_tokens)).sum ∧
      r.tokensOut = ((calls.filter (fun c => decide (c.model = m))).map
        (·.n_output_tokens)).sum ∧
      r.costIn = ((calls.filter (fun c => decide (c.model = m))).map
        (fun c => (c.n_input_tokens : ℚ) * p.1)).sum ∧
      r.costOut = ((calls.filter (fun c => decide (c.model = m))).map
        (fun c => (c.n_output_tokens : ℚ) * p.2)).sum) ∧
    getUsageBalance (ledgerOfCalls calls) =
      usageBalanceRows (ledgerOfCalls calls) ++
        [totalsRow (usageBalanceRows (ledgerOfCalls calls))] ∧
    (totalsRow (usageBalanceRows (ledgerOfCalls calls))).model = "Total" ∧
    (getUsageBalance (ledgerOfCalls calls)).getLast? =
      some (totalsRow (usageBalanceRows (ledgerOfCalls calls))) ∧
    (totalsRow (usageBalanceRows (ledgerOfCalls calls))).tokensIn =
      ((usageBalanceRows (ledgerOfCalls calls)).map (·.tokensIn)).sum ∧
    (totalsRow (usageBalanceRows (ledgerOfCalls calls))).tokensOut =
      ((usageBalanceRows (ledgerOfCalls calls)).map (·.tokensOut)).sum ∧
    (totalsRow (usageBalanceRows (ledgerOfCalls calls))).costIn =
      ((usageBalanceRows (ledgerOfCalls calls)).map (·.costIn)).sum ∧
    (totalsRow (usageBalanceRows (ledgerOfCalls calls))).costOut =
      ((usageBalanceRows (ledgerOfCalls calls)).map (·.costOut)).sum := by
  have hL : ledgerOfCalls calls = calls.map rowOfCall := ledgerOfCalls_eq_map calls h
  have hTot : tokenPrice "Total" = none := by decide
  have hTm : m ≠ "Total" := by
    intro e
    rw [e, hTot] at hp
    cases hp
  have hfilter : (ledgerOfCalls calls).filter (fun r => decide (r.model = m))
      = (calls.filter (fun c => decide (c.model = m))).map rowOfCall := by
    rw [hL]
    exact filter_model_map_rowOfCall calls m
  have hrow_eq : ∀ r ∈ getUsageBalance (ledgerOfCalls calls), r.model = m →
      r = balanceRowFor (ledgerOfCalls calls) m := by
    intro r hr hrm
    rcases List.mem_append.mp hr with hr | hr
    · have hr2 : r ∈ (dropDuplicates ((ledgerOfCalls calls).map (·.model))).map
          (balanceRowFor (ledgerOfCalls calls)) :=
        ((List.perm_insertionSort balDescRel _).mem_iff).mp hr
      obtain ⟨m', _, heq⟩ := List.mem_map.mp hr2
      have hm'm : m' = m := by
        rw [← hrm, ← heq]
        rfl
      rw [← heq, hm'm]
    · have hrT : r = totalsRow (usageBalanceRows (ledgerOfCalls calls)) := by
        simpa using hr
      exfalso
      apply hTm
      rw [← hrm, hrT]
      rfl
  have htokIn : (balanceRowFor (ledgerOfCalls calls) m).tokensIn
      = ((calls.filter (fun c => decide (c.model = m))).map (·.n_input_tokens)).sum := by
    simp only [balanceRowFor, hfilter, List.map_map]
    rfl
  have htokOut : (balanceRowFor (ledgerOfCalls calls) m).tokensOut
      = ((calls.filter (fun c => decide (c.model = m))).map (·.n_output_tokens)).sum := by
    simp only [balanceRowFor, hfilter, List.map_map]
    rfl
  have hcostIn : (balanceRowFor (ledgerOfCalls calls) m).costIn
      = ((calls.filter (fun c => decide (c.model = m))).map
          (fun c => (c.n_input_tokens : ℚ) * p.1)).sum := by
    simp only [balanceRowFor, hfilter, List.map_map]
    congr 1
    refine List.map_congr_left ?_
    intro c hc
    have hcm : c.model = m := of_decide_eq_true (List.mem_filter.mp hc).2
    show (c.n_input_tokens : ℚ) * priceIn c.model = (c.n_input_tokens : ℚ) * p.1
    rw [hcm, priceIn, hp]
    rfl
  have hcostOut : (balanceRowFor (ledgerOfCalls calls) m).costOut
      = ((calls.filter (fun c => decide (c.model = m))).map
          (fun c => (c.n_output_tokens : ℚ) * p.2)).sum := by
    simp only [balanceRowFor, hfilter, List.map_map]
    congr 1
    refine List.map_congr_left ?_
    intro c hc
    have hcm : c.model = m := of_decide_eq_true (List.mem_filter.mp hc).2
    show (c.n_output_tokens : ℚ) * priceOut c.model = (c.n_output_tokens : ℚ) * p.2
    rw [hcm, priceOut, hp]
    rfl
  have hcount : (getUsageBalance (ledgerOfCalls calls)).countP
      (fun r => decide (r.model = m)) = 1 := by
    rw [getUsageBalance, List.countP_append]
    have h2 : List.countP (fun r => decide (r.model = m))
        [totalsRow (usageBalanceRows (ledgerOfCalls calls))] = 0 := by
      simp [List.countP_cons, totalsRow, Ne.symm hTm]
    rw [h2, Nat.add_zero, usageBalanceRows,
      (List.perm_insertionSort balDescRel _).countP_eq, List.countP_map]
    have h4 : m ∈ dropDuplicates ((ledgerOfCalls calls).map (·.model)) := by
      rw [mem_dropDuplicates, hL, List.map_map]
      obtain ⟨c, hc, hcm⟩ := List.mem_map.mp hm
      exact List.mem_map.mpr ⟨c, hc, hcm⟩
    exact countP_eq_one_of_nodup m _ (nodup_ddAux _ []) h4
  refine ⟨hcount, ?_, rfl, rfl, List.getLast?_concat _, rfl, rfl, rfl, rfl⟩
  intro r hr hrm
  rw [hrow_eq r hr hrm]
  exact ⟨htokIn, htokOut, hcostIn, hcostOut⟩

/-- The end-to-end accounting scenario of the spec: two `gpt-4` record calls
with 100 and 10 input tokens and 50 and 5 output tokens. -/
def demoCalls : List LedgerCall :=
  [⟨1, "gpt-4", 100, 50⟩, ⟨2, "gpt-4", 10, 5⟩]

/-- Witness for claim C6 at the concrete call sequence `demoCalls`. -/
theorem summarize_totals_witness :
    (∀ c ∈ demoCalls, (tokenPrice c.model).isSome) ∧
    tokenPrice "gpt-4" = some (0.03 / 1000, 0.06 / 1000) ∧
    "gpt-4" ∈ demoCalls.map (·.model) ∧
    ((getUsageBalance (ledgerOfCalls demoCalls)).countP
        (fun r => decide (r.model = "gpt-4")) = 1 ∧
     (∀ r ∈ getUsageBalance (ledgerOfCalls demoCalls), r.model = "gpt-4" →
       r.tokensIn = ((demoCalls.filter (fun c => decide (c.model = "gpt-4"))).map
         (·.n_input_tokens)).sum ∧
       r.tokensOut = ((demoCalls.filter (fun c => decide (c.model = "gpt-4"))).map
         (·.n_output_tokens)).sum ∧
       r.costIn = ((demoCalls.filter (fun c => decide (c.model = "gpt-4"))).map
         (fun c => (c.n_input_tokens : ℚ) * (0.03 / 1000 : ℚ))).sum ∧
       r.costOut = ((demoCalls.filter (fun c => decide (c.model = "gpt-4"))).map
         (fun c => (c.n_output_tokens : ℚ) * (0.06 / 1000 : ℚ))).sum) ∧
     getUsageBalance (ledgerOfCalls demoCalls) =
       usageBalanceRows (ledgerOfCalls demoCalls) ++
         [totalsRow (usageBalanceRows (ledgerOfCalls demoCalls))] ∧
     (totalsRow (usageBalanceRows (ledgerOfCalls demoCalls))).model = "Total" ∧
     (getUsageBalance (ledgerOfCalls demoCalls)).getLast? =
       some (totalsRow (usageBalanceRows (ledgerOfCalls demoCalls))) ∧
     (totalsRow (usageBalanceRows (ledgerOfCalls demoCalls))).tokensIn =
       ((usageBalanceRows (ledgerOfCalls demoCalls)).map (·.tokensIn)).sum ∧
     (totalsRow (usageBalanceRows (ledgerOfCalls demoCalls))).tokensOut =
       ((usageBalanceRows (ledgerOfCalls demoCalls)).map (·.tokensOut)).sum ∧
     (totalsRow (usageBalanceRows (ledgerOfCalls demoCalls))).costIn =
       ((usageBalanceRows (ledgerOfCalls demoCalls)).map (·.costIn)).sum ∧
     (totalsRow (usageBalanceRows (ledgerOfCalls demoCalls))).costOut =
       ((usageBalanceRows (ledgerOfCalls demoCalls)).map (·.costOut)).sum) :=
  ⟨by decide, rfl, by decide,
    summarize_totals demoCalls "gpt-4" (0.03 / 1000, 0.06 / 1000)
      (by decide) rfl (by decide)⟩

/-- A Python string, modelled as its sequence of unicode code points. -/
abbrev PyStr := List Nat

/-- A message dict with string keys and string values, in insertion order. -/
abbrev MsgDict := List (PyStr × PyStr)

/-- A message exchange: an ordered sequence of message dicts, the value the
chat code passes to `insert_message_exchange`. -/
abbrev Exchange := List MsgDict

/-- Lowercase hex digit ASCII code for a value below 16, as emitted inside
the unicode escapes of `json.dumps`. -/
def hexDigitChar (n : Nat) : Nat := if n < 10 then 48 + n else 87 + n

/-- The six-character escape `\uXXXX` for a UTF-16 code unit. -/
def uEscape (c : Nat) : List Nat :=
  [92, 117, hexDigitChar (c / 4096 % 16), hexDigitChar (c / 256 % 16),
   hexDigitChar (c / 16 % 16), hexDigitChar (c % 16)]

/-- How `json.dumps` (default `ensure_ascii=True`, CPython
`py_encode_basestring_ascii`) serializes one code point inside a string
literal: two-character escapes for the quote, the backslash and the C
control escapes; `\uXXXX` for every other control or non-ASCII character;
printable ASCII verbatim; and a UTF-16 surrogate pair of `\uXXXX` escapes
for a code point above 0xFFFF. -/
def jsonEscapeChar (c : Nat) : List Nat :=
  if c = 34 then [92, 34]
  else if c = 92 then [92, 92]
  else if c = 10 then [92, 110]
  else if c = 13 then [92, 114]
  else if c = 9 then [92, 116]
  else if c = 8 then [92, 98]
  else if c = 12 then [92, 102]
  else if c < 32 then uEscape c
  else if c < 127 then [c]
  else if c < 65536 then uEscape c
  else uEscape (55296 + (c - 65536) / 1024) ++ uEscape (56320 + (c - 65536) % 1024)

/-- The string content `json.dumps` emits for one Python string (the part
between the quotes). -/
def jsonDumpsStr (s : PyStr) : PyStr := (s.map jsonEscapeChar).flatten

/-- Value of an ASCII hex digit (Python accepts both letter cases). -/
def hexVal (c : Nat) : Nat :=
  if 48 ≤ c ∧ c ≤ 57 then c - 48
  else if 97 ≤ c ∧ c ≤ 102 then c - 87
  else if 65 ≤ c ∧ c ≤ 70 then c - 55
  else 0

/-- The two-character escapes of Python string literals. -/
def shortEscape (e : Nat) : Nat :=
  if e = 110 then 10
  else if e = 114 then 13
  else if e = 116 then 9
  else if e = 98 then 8
  else if e = 102 then 12
  else e

/-- How `ast.literal_eval` decodes the content of a quoted string literal
(CPython escape decoding): each `\uXXXX` yields exactly the code point it
spells — surrogate halves stay separate code points and are never paired
back into one astral code point — and a two-character escape yields its C
meaning; every other character stands for itself. -/
def pyParse : PyStr → PyStr
  | [] => []
  | c :: rest =>
    if c = 92 then
      match rest with
      | [] => [c]
      | e :: rest2 =>
        if e = 117 then
          match rest2 with
          | a :: b :: g :: d :: rest3 =>
              (hexVal a * 4096 + hexVal b * 256 + hexVal g * 16 + hexVal d) :: pyParse rest3
          | rest2a => shortEscape e :: pyParse rest2a
        else shortEscape e :: pyParse rest2
    else c :: pyParse rest

/-- The code points `ast.literal_eval` recovers from the serialization of
one original code point: the code point itself below 0x10000, and its two
UTF-16 surrogate halves above. -/
def pyDecodeChar (c : Nat) : List Nat :=
  if c < 65536 then [c]
  else [55296 + (c - 65536) / 1024, 56320 + (c - 65536) % 1024]

/-- `json.dumps` applied to a message exchange of the string-dict shape.
The JSON structural syntax (brackets, braces, commas, colons, quotes) is
consumed structurally by the reader, so the serialization is modelled
structurally, with each string's content escaped. -/
def jsonDumpsExchange (ex : Exchange) : Exchange :=
  ex.map (fun msg => msg.map (fun kv => (jsonDumpsStr kv.1, jsonDumpsStr kv.2)))

/-- `ast.literal_eval` applied to a stored serialized exchange. -/
def astLiteralEvalExchange (ex : Exchange) : Exchange :=
  ex.map (fun msg => msg.map (fun kv => (pyParse kv.1, pyParse kv.2)))

theorem hexVal_hexDigitChar (n : Nat) (h : n < 16) : hexVal (hexDigitChar n) = n := by
  rw [hexDigitChar, hexVal]
  split_ifs <;> omega

theorem pyParse_u_cons (a b g d : Nat) (r : PyStr) :
    pyParse (92 :: 117 :: a :: b :: g :: d :: r)
      = (hexVal a * 4096 + hexVal b * 256 + hexVal g * 16 + hexVal d) :: pyParse r :=
  rfl

theorem pyParse_short (e : Nat) (r : PyStr) (he : e ≠ 117) :
    pyParse (92 :: e :: r) = shortEscape e :: pyParse r := by
  rw [pyParse.eq_def]
  simp [he]

theorem pyParse_raw (c : Nat) (r : PyStr) (hc : c ≠ 92) :
    pyParse (c :: r) = c :: pyParse r := by
  rw [pyParse.eq_def]
  simp [hc]

theorem pyParse_uEscape (c : Nat) (r : PyStr) (h : c < 65536) :
    pyParse (uEscape c ++ r) = c :: pyParse r := by
  have h1 := hexVal_hexDigitChar (c / 4096 % 16) (Nat.mod_lt _ (by omega))
  have h2 := hexVal_hexDigitChar (c / 256 % 16) (Nat.mod_lt _ (by omega))
  have h3 := hexVal_hexDigitChar (c / 16 % 16) (Nat.mod_lt _ (by omega))
  have h4 := hexVal_hexDigitChar (c % 16) (Nat.mod_lt _ (by omega))
  have step : pyParse (uEscape c ++ r)
      = (hexVal (hexDigitChar (c / 4096 % 16)) * 4096 +
         hexVal (hexDigitChar (c / 256 % 16)) * 256 +
         hexVal (hexDigitChar (c / 16 % 16)) * 16 +
         hexVal (hexDigitChar (c % 16))) :: pyParse r := by
    rw [uEscape]
    simp only [List.cons_append, List.nil_append]
    exact pyParse_u_cons _ _ _ _ r
  rw [step, h1, h2, h3, h4]
  have harith : c / 4096 % 16 * 4096 + c / 256 % 16 * 256 + c / 16 % 16 * 16 + c % 16 = c := by
    omega
  rw [harith]

set_option maxHeartbeats 1600000 in
theorem pyParse_jsonEscapeChar (c : Nat) (r : PyStr) (h : c < 1114112) :
    pyParse (jsonEscapeChar c ++ r) = pyDecodeChar c ++ pyParse r := by
  rw [jsonEscapeChar]
  split_ifs with h34 h92 h10 h13 h9 h8 h12 hctl hascii hbmp
  · subst h34
    simp only [List.cons_append, List.nil_append]
    rw [pyParse_short _ _ (by omega)]
    rfl
  · subst h92
    simp only [List.cons_append, List.nil_append]
    rw [pyParse_short _ _ (by omega)]
    rfl
  · subst h10
    simp only [List.cons_append, List.nil_append]
    rw [pyParse_short _ _ (by omega)]
    rfl
  · subst h13
    simp only [List.cons_append, List.nil_append]
    rw [pyParse_short _ _ (by omega)]
    rfl
  · subst h9
    simp only [List.cons_append, List.nil_append]
    rw [pyParse_short _ _ (by omega)]
    rfl
  · subst h8
    simp only [List.cons_append, List.nil_append]
    rw [pyParse_short _ _ (by omega)]
    rfl
  · subst h12
    simp only [List.cons_append, List.nil_append]
    rw [pyParse_short _ _ (by omega)]
    rfl
  · rw [pyParse_uEscape c r (by omega), pyDecodeChar, if_pos (by omega)]
    rfl
  · rw [pyDecodeChar, if_pos (by omega)]
    simp only [List.cons_append, List.nil_append]
    rw [pyParse_raw c r h92]
  · rw [pyParse_uEscape c r hbmp, pyDecodeChar, if_pos hbmp]
    rfl
  · rw [List.append_assoc,
      pyParse_uEscape _ _ (by omega),
      pyParse_uEscape _ _ (by omega),
      pyDecodeChar, if_neg (by omega)]
    rfl

theorem pyParse_jsonDumpsStr (s : PyStr) (h : ∀ c ∈ s, c < 1114112) :
    pyParse (jsonDumpsStr s) = (s.map pyDecodeChar).flatten := by
  induction s with
  | nil => rfl
  | cons c cs ih =>
    simp only [jsonDumpsStr, List.map_cons, List.flatten_cons]
    rw [pyParse_jsonEscapeChar c _ (h c (List.mem_cons_self c cs))]
    have ih2 := ih (fun d hd => h d (List.mem_cons_of_mem c hd))
    rw [jsonDumpsStr] at ih2
    rw [ih2]

theorem pyParse_jsonDumpsStr_id (s : PyStr) (h : ∀ c ∈ s, c < 65536) :
    pyParse (jsonDumpsStr s) = s := by
  rw [pyParse_jsonDumpsStr s (fun c hc => lt_trans (h c hc) (by omega))]
  induction s with
  | nil => rfl
  | cons c cs ih =>
    rw [List.map_cons, List.flatten_cons, pyDecodeChar,
      if_pos (h c (List.mem_cons_self c cs)),
      ih (fun d hd => h d (List.mem_cons_of_mem c hd))]
    rfl

theorem roundtrip_exchange (ex : Exchange)
    (h : ∀ msg ∈ ex, ∀ kv ∈ msg, (∀ c ∈ kv.1, c < 65536) ∧ (∀ c ∈ kv.2, c < 65536)) :
    astLiteralEvalExchange (jsonDumpsExchange ex) = ex := by
  rw [astLiteralEvalExchange, jsonDumpsExchange, List.map_map]
  have : ∀ msg ∈ ex, ((fun msg => msg.map (fun kv => (pyParse kv.1, pyParse kv.2))) ∘
      (fun msg => msg.map (fun kv => (jsonDumpsStr kv.1, jsonDumpsStr kv.2)))) msg = msg := by
    intro msg hmsg
    show (msg.map (fun kv => (jsonDumpsStr kv.1, jsonDumpsStr kv.2))).map
        (fun kv => (pyParse kv.1, pyParse kv.2)) = msg
    rw [List.map_map]
    have : ∀ kv ∈ msg, ((fun kv => (pyParse kv.1, pyParse kv.2)) ∘
        (fun kv => (jsonDumpsStr kv.1, jsonDumpsStr kv.2))) kv = kv := by
      intro kv hkv
      show (pyParse (jsonDumpsStr kv.1), pyParse (jsonDumpsStr kv.2)) = kv
      obtain ⟨hk, hv⟩ := h msg hmsg kv hkv
      rw [pyParse_jsonDumpsStr_id kv.1 hk, pyParse_jsonDumpsStr_id kv.2 hv]
    rw [List.map_congr_left this]
    simp
  rw [List.map_congr_left this]
  simp

/-- One row of the `messages` table (`embeddings_database.py` lines 39-46):
the `message_exchange` column holds the serialized (`json.dumps`) exchange.
The serialization of the `embedding` column is not modelled (no claim
depends on it); the vector is stored as is. -/
structure MessageRow where
  timestamp : Nat
  chat_model : String
  message_exchange : Exchange
  embedding : List ℚ
deriving DecidableEq, Repr

/-- The persistent state of one `EmbeddingsDatabase` store: the single-row
`embedding_model` pin table and the append-only `messages` table. -/
structure EmbeddingsDb where
  embedding_model_table : List (Nat × String)
  messages : List MessageRow
deriving DecidableEq, Repr

/-- A freshly created store: `create()` makes both tables empty. -/
def emptyDb : EmbeddingsDb := { embedding_model_table := [], messages := [] }

/-- `EmbeddingsDatabase.get_embedding_model` (`embeddings_database.py` lines
77-95): the first row of the `embedding_model` table, or `None` when the
store was never written. -/
def get_embedding_model (db : EmbeddingsDb) : Option String :=
  db.embedding_model_table.head?.map (·.2)

/-- `EmbeddingsDatabase._init_database` (`embeddings_database.py` lines
140-148): insert the pin row. -/
def initDatabase (embedding_model : String) (now : Nat) (db : EmbeddingsDb) : EmbeddingsDb :=
  { db with embedding_model_table := db.embedding_model_table ++ [(now, embedding_model)] }

/-- `EmbeddingsDatabase.insert_message_exchange` (`embeddings_database.py`
lines 97-126): create the pin on first write; raise `ValueError` when the
pin differs from the store's configured embedding model (before any write);
otherwise serialize and append one message row. -/
def insert_message_exchange (embedding_model : String) (now : Nat)
    (chat_model : String) (message_exchange : Exchange) (embedding : List ℚ)
    (db : EmbeddingsDb) : Except String EmbeddingsDb :=
  match get_embedding_model db with
  | none =>
      let db2 := initDatabase embedding_model now db
      .ok { db2 with messages := db2.messages ++
        [{ timestamp := now, chat_model := chat_model,
           message_exchange := jsonDumpsExchange message_exchange,
           embedding := embedding }] }
  | some stored =>
      if stored ≠ embedding_model then
        .error "Database already contains a different embedding model. Cannot continue."
      else
        .ok { db with messages := db.messages ++
          [{ timestamp := now, chat_model := chat_model,
             message_exchange := jsonDumpsExchange message_exchange,
             embedding := embedding }] }

/-- `ChatContext.load_history` (`chat_context.py` lines 47-51): parse every
stored `message_exchange` with `ast.literal_eval` and flatten the exchanges
into one message sequence. -/
def load_history (db : EmbeddingsDb) : List MsgDict :=
  (db.messages.map (fun r => astLiteralEvalExchange r.message_exchange)).flatten

/-- Claim C4: with an existing pin A and a configured model B different from
A, `insert_message_exchange` raises and appends no record; with the
configured model equal to the pin, the insert succeeds, appends exactly one
row and leaves the pin table unchanged; and on a store without a pin, the
first successful insert creates the pin exactly once. -/
theorem embedding_model_pin (db : EmbeddingsDb) (A B chat_model : String)
    (ex : Exchange) (emb : List ℚ) (now : Nat) :
    (get_embedding_model db = some A → A ≠ B →
      insert_message_exchange B now chat_model ex emb db =
        .error "Database already contains a different embedding model. Cannot continue." ∧
      stateAfter db (insert_message_exchange B now chat_model ex emb db) = db) ∧
    (get_embedding_model db = some A →
      insert_message_exchange A now chat_model ex emb db =
        .ok { db with messages := db.messages ++
          [{ timestamp := now, chat_model := chat_model,
             message_exchange := jsonDumpsExchange ex, embedding := emb }] } ∧
      get_embedding_model
        (stateAfter db (insert_message_exchange A now chat_model ex emb db)) = some A ∧
      (stateAfter db (insert_message_exchange A now chat_model ex emb db)).embedding_model_table
        = db.embedding_model_table) ∧
    (get_embedding_model db = none →
      insert_message_exchange A now chat_model ex emb db =
        .ok { embedding_model_table := [(now, A)],
              messages := db.messages ++
                [{ timestamp := now, chat_model := chat_model,
                   message_exchange := jsonDumpsExchange ex, embedding := emb }] } ∧
      get_embedding_model
        (stateAfter db (insert_message_exchange A now chat_model ex emb db)) = some A) := by
  refine ⟨?_, ?_, ?_⟩
  · intro hA hAB
    have he : insert_message_exchange B now chat_model ex emb db =
        .error "Database already contains a different embedding model. Cannot continue." := by
      simp only [insert_message_exchange, hA]
      rw [if_pos hAB]
    exact ⟨he, by rw [he]; rfl⟩
  · intro hA
    have hok : insert_message_exchange A now chat_model ex emb db =
        .ok { db with messages := db.messages ++
          [{ timestamp := now, chat_model := chat_model,
             message_exchange := jsonDumpsExchange ex, embedding := emb }] } := by
      simp only [insert_message_exchange, hA]
      rw [if_neg (by simp)]
    refine ⟨hok, ?_, ?_⟩
    · rw [hok]
      show get_embedding_model { db with messages := _ } = some A
      rw [show get_embedding_model { db with messages := db.messages ++
        [{ timestamp := now, chat_model := chat_model,
           message_exchange := jsonDumpsExchange ex, embedding := emb }] }
        = get_embedding_model db from rfl, hA]
    · rw [hok]
      rfl
  · intro hnone
    have htab : db.embedding_model_table = [] := by
      cases htab2 : db.embedding_model_table with
      | nil => rfl
      | cons p rest =>
        rw [get_embedding_model, htab2] at hnone
        cases hnone
    have hok : insert_message_exchange A now chat_model ex emb db =
        .ok { embedding_model_table := [(now, A)],
              messages := db.messages ++
                [{ timestamp := now, chat_model := chat_model,
                   message_exchange := jsonDumpsExchange ex, embedding := emb }] } := by
      simp only [insert_message_exchange, hnone, initDatabase, htab]
      rfl
    exact ⟨hok, by rw [hok]; rfl⟩

/-- A store whose pin is the model "modelA", holding no message rows yet. -/
def dbPinA : EmbeddingsDb := { embedding_model_table := [(5, "modelA")], messages := [] }

/-- A small all-ASCII exchange used by the concrete store scenarios. -/
def demoExchange : Exchange :=
  [[([114, 111, 108, 101], [117, 115, 101, 114]),
    ([99, 111, 110, 116, 101, 110, 116], [104, 105])]]

/-- Witness for claim C4: mismatching insert fails on a pinned store, and
matching inserts succeed on the pinned store and create the pin on a fresh
store. -/
theorem embedding_model_pin_witness :
    (get_embedding_model dbPinA = some "modelA") ∧ ("modelA" ≠ "modelB") ∧
    (insert_message_exchange "modelB" 6 "gpt-4" demoExchange [1] dbPinA =
      .error "Database already contains a different embedding model. Cannot continue." ∧
     stateAfter dbPinA (insert_message_exchange "modelB" 6 "gpt-4" demoExchange [1] dbPinA)
       = dbPinA) ∧
    (insert_message_exchange "modelA" 6 "gpt-4" demoExchange [1] dbPinA =
      .ok { dbPinA with messages := dbPinA.messages ++
        [{ timestamp := 6, chat_model := "gpt-4",
           message_exchange := jsonDumpsExchange demoExchange, embedding := [1] }] } ∧
     get_embedding_model
       (stateAfter dbPinA (insert_message_exchange "modelA" 6 "gpt-4" demoExchange [1] dbPinA))
       = some "modelA" ∧
     (stateAfter dbPinA
       (insert_message_exchange "modelA" 6 "gpt-4" demoExchange [1] dbPinA)).embedding_model_table
       = dbPinA.embedding_model_table) ∧
    (get_embedding_model emptyDb = none) ∧
    (insert_message_exchange "modelA" 6 "gpt-4" demoExchange [1] emptyDb =
      .ok { embedding_model_table := [(6, "modelA")],
            messages := emptyDb.messages ++
              [{ timestamp := 6, chat_model := "gpt-4",
                 message_exchange := jsonDumpsExchange demoExchange, embedding := [1] }] } ∧
     get_embedding_model
       (stateAfter emptyDb (insert_message_exchange "modelA" 6 "gpt-4" demoExchange [1] emptyDb))
       = some "modelA") :=
  ⟨rfl, by decide,
    (embedding_model_pin dbPinA "modelA" "modelB" "gpt-4" demoExchange [1] 6).1
      rfl (by decide),
    (embedding_model_pin dbPinA "modelA" "modelB" "gpt-4" demoExchange [1] 6).2.1 rfl,
    rfl,
    (embedding_model_pin emptyDb "modelA" "modelB" "gpt-4" demoExchange [1] 6).2.2 rfl⟩

/-- The trigger events relevant to the store's immutability guard. -/
inductive TriggerEvent
  | update
  | delete
deriving DecidableEq, Repr

/-- One sqlite trigger of the store's schema. -/
structure DbTrigger where
  event : TriggerEvent
  table : String
deriving DecidableEq, Repr

/-- The triggers installed by `EmbeddingsDatabase.create`
(`embeddings_database.py` lines 53-72): a `BEFORE UPDATE` trigger raising
FAIL on each of the two tables.  No `BEFORE DELETE` trigger is created. -/
def schemaTriggers : List DbTrigger :=
  [{ event := .update, table := "embedding_model" },
   { event := .update, table := "messages" }]

/-- Whether the schema blocks the given statement kind on the given table:
a `BEFORE` trigger whose body is `RAISE(FAIL, ...)` aborts the statement. -/
def hasBlockingTrigger (ev : TriggerEvent) (table : String) : Bool :=
  schemaTriggers.any (fun t => t.event == ev && t.table == table)

/-- An SQL `UPDATE` against the `messages` table of a store: aborted with
the trigger's FAIL message when a `BEFORE UPDATE` trigger exists, otherwise
applying `f` to every row satisfying `pred`. -/
def runUpdateMessages (db : EmbeddingsDb) (pred : MessageRow → Bool)
    (f : MessageRow → MessageRow) : Except String EmbeddingsDb :=
  if hasBlockingTrigger .update "messages" then .error "modification not allowed"
  else .ok { db with messages := db.messages.map (fun r => if pred r then f r else r) }

/-- An SQL `DELETE` against the `messages` table of a store: aborted only if
a `BEFORE DELETE` trigger exists, otherwise removing every row satisfying
`pred`. -/
def runDeleteMessages (db : EmbeddingsDb) (pred : MessageRow → Bool) :
    Except String EmbeddingsDb :=
  if hasBlockingTrigger .delete "messages" then .error "modification not allowed"
  else .ok { db with messages := db.messages.filter (fun r => ! pred r) }

/-- A store holding one previously inserted exchange record. -/
def db1 : EmbeddingsDb :=
  { embedding_model_table := [(11, "text-embedding-ada-002")],
    messages := [{ timestamp := 11, chat_model := "gpt-4",
                   message_exchange := jsonDumpsExchange demoExchange,
                   embedding := [1, 0] }] }

/-- Claim C5 (counterexample): the schema only installs `BEFORE UPDATE`
triggers, so a `DELETE` is not stopped at the storage boundary: deleting the
previously inserted record of `db1` succeeds and removes it, contradicting
the claim that every delete attempt fails. -/
theorem store_delete_not_blocked_cex :
    hasBlockingTrigger .delete "messages" = false ∧
    runDeleteMessages db1 (fun _ => true) =
      .ok { embedding_model_table := [(11, "text-embedding-ada-002")], messages := [] } ∧
    (stateAfter db1 (runDeleteMessages db1 (fun _ => true))).messages = [] ∧
    db1.messages ≠ [] := by
  exact ⟨rfl, rfl, rfl, by decide⟩

/-- Claim C5 (amended): every attempted `UPDATE` of previously inserted
records fails unconditionally at the storage boundary (the `BEFORE UPDATE`
trigger raises FAIL), leaving the store unchanged, so the records' contents
are identical on every subsequent read; `DELETE` statements, however, are
not blocked by the storage layer. -/
theorem store_update_blocked (db : EmbeddingsDb) (pred : MessageRow → Bool)
    (f : MessageRow → MessageRow) :
    runUpdateMessages db pred f = .error "modification not allowed" ∧
    stateAfter db (runUpdateMessages db pred f) = db ∧
    (stateAfter db (runUpdateMessages db pred f)).messages = db.messages := by
  exact ⟨rfl, rfl, rfl⟩

/-- Claim C10 (amended): inserting an exchange of the string-dict shape into
a fresh store and then loading the history returns exactly the original
message sequence, provided every code point of its strings is below 0x10000;
the store's `json.dumps` serialization composed with the reader's
`ast.literal_eval` parsing is the identity on such exchanges. -/
theorem store_roundtrip (ex : Exchange) (embedding_model chat_model : String)
    (emb : List ℚ) (now : Nat)
    (h : ∀ msg ∈ ex, ∀ kv ∈ msg, (∀ c ∈ kv.1, c < 65536) ∧ (∀ c ∈ kv.2, c < 65536)) :
    load_history (stateAfter emptyDb
      (insert_message_exchange embedding_model now chat_model ex emb emptyDb)) = ex := by
  have hok : insert_message_exchange embedding_model now chat_model ex emb emptyDb =
      .ok { embedding_model_table := [(now, embedding_model)],
            messages := [{ timestamp := now, chat_model := chat_model,
                           message_exchange := jsonDumpsExchange ex, embedding := emb }] } :=
    rfl
  rw [hok]
  show load_history ({ embedding_model_table := [(now, embedding_model)],
                       messages := [{ timestamp := now, chat_model := chat_model,
                                      message_exchange := jsonDumpsExchange ex,
                                      embedding := emb }] } : EmbeddingsDb) = ex
  rw [load_history]
  simp only [List.map_cons, List.map_nil, List.flatten_cons, List.flatten_nil,
    List.append_nil]
  exact roundtrip_exchange ex h

/-- Witness for the amended claim C10 at the all-ASCII `demoExchange`. -/
theorem store_roundtrip_witness :
    (∀ msg ∈ demoExchange, ∀ kv ∈ msg,
      (∀ c ∈ kv.1, c < 65536) ∧ (∀ c ∈ kv.2, c < 65536)) ∧
    load_history (stateAfter emptyDb
      (insert_message_exchange "text-embedding-ada-002" 3 "gpt-4" demoExchange [1] emptyDb))
      = demoExchange :=
  ⟨by decide,
    store_roundtrip demoExchange "text-embedding-ada-002" "gpt-4" [1] 3 (by decide)⟩

/-- An exchange whose assistant content is the single astral code point
U+1F600 (a character outside the basic multilingual plane). -/
def emojiExchange : Exchange :=
  [[([114, 111, 108, 101], [117, 115, 101, 114]),
    ([99, 111, 110, 116, 101, 110, 116], [128512])]]

/-- Claim C10 (counterexample): the round trip is not the identity on every
string-valued exchange: `json.dumps` writes U+1F600 as a pair of
backslash-u escapes spelling the UTF-16 surrogates, and `ast.literal_eval`
decodes those as two separate surrogate code points 0xD83D and 0xDE00 rather
than the original code point, so the loaded history differs from the
inserted exchange. -/
theorem store_roundtrip_cex :
    load_history (stateAfter emptyDb
      (insert_message_exchange "text-embedding-ada-002" 3 "gpt-4" emojiExchange [1] emptyDb))
      = [[([114, 111, 108, 101], [117, 115, 101, 114]),
          ([99, 111, 110, 116, 101, 110, 116], [55357, 56832])]] ∧
    load_history (stateAfter emptyDb
      (insert_message_exchange "text-embedding-ada-002" 3 "gpt-4" emojiExchange [1] emptyDb))
      ≠ emojiExchange := by
  exact ⟨by decide, by decide⟩

end PyRobBot
